import Mathlib

set_option maxRecDepth 100000

/-!
Verification of the bandwidth-throttle ("56k modem simulator") core of
`src/server.js`, together with the HTML-escaping and guestbook-submission
helpers the claims mention.  Strings are modelled as `List Char`, byte
buffers as `List Nat`, and the `setTimeout` drip chain as a trace of
scheduled tick events carrying their absolute scheduled time.
-/

namespace DemonicSkull

/-! ### Throttle configuration (src/server.js lines 46-50) -/

def MODEM_BPS : Nat := 56000

/-- `Math.floor(MODEM_BPS / 8)` -/
def MODEM_BYTES_PER_SEC : Nat := MODEM_BPS / 8

def MODEM_LATENCY : Nat := 120

def CHUNK_INTERVAL : Nat := 50

/-- `Math.floor(MODEM_BYTES_PER_SEC * CHUNK_INTERVAL / 1000)` -/
def CHUNK_SIZE : Nat := MODEM_BYTES_PER_SEC * CHUNK_INTERVAL / 1000

/-- The chunk-size formula of line 50, parametrised by the bitrate and
interval literals that appear in it. -/
def chunkSizeOf (bps interval : Nat) : Nat := bps / 8 * interval / 1000

/-- The startup path of `src/server.js` (constant definitions on lines 45-50
followed by the unconditional `app.listen` on line 350): it performs no
validation of the derived chunk size, so every parameter combination is
accepted.  Modelled as the constantly-true acceptance predicate because the
source contains no guard between computing `CHUNK_SIZE` and serving traffic. -/
def startupAcceptsConfig (bps interval : Nat) : Bool :=
  let _ := chunkSizeOf bps interval
  true

/-- Ceiling division, `(a + b - 1) / b`. -/
def ceilDiv (a b : Nat) : Nat := (a + b - 1) / b

/-! ### The drip scheduler (src/server.js lines 91-103)

    let offset = 0;
    const drip = function() {
      const end = Math.min(offset + CHUNK_SIZE, body.length);
      originalWrite.call(res, body.slice(offset, end));
      offset = end;
      if (offset >= body.length) {
        originalEnd.call(res);
      } else {
        setTimeout(drip, CHUNK_INTERVAL);
      }
    };
    setTimeout(drip, MODEM_LATENCY);

Each invocation of `drip` is one `Tick`: it records the absolute scheduled
time of the invocation, the cursor before (`start`) and after (`stop`) the
write, and the slice written.  Recursion is by fuel so the definition is
structural; `body.length` fuel suffices whenever the chunk size is positive.
-/

structure Tick where
  time : Nat
  start : Nat
  stop : Nat
  piece : List Nat
deriving DecidableEq, Repr

def dripGo (C I : Nat) (body : List Nat) : Nat → Nat → Nat → List Tick
  | 0, _, _ => []
  | fuel + 1, offset, t =>
    let e := min (offset + C) body.length
    let piece := (body.drop offset).take (e - offset)
    if body.length ≤ e then
      [⟨t, offset, e, piece⟩]
    else
      ⟨t, offset, e, piece⟩ :: dripGo C I body fuel e (t + I)

/-- The drip chain as scheduled by `res.end` for a non-empty buffered body:
first tick after `MODEM_LATENCY`, then one tick every `CHUNK_INTERVAL`.
The final tick also invokes the underlying `end`, so the underlying finalize
is scheduled at the time of the last tick. -/
def dripTicks (body : List Nat) : List Tick :=
  dripGo CHUNK_SIZE CHUNK_INTERVAL body body.length 0 MODEM_LATENCY

/-- Absolute scheduled time of the underlying `originalEnd` call: the time of
the last drip tick (the tick whose write exhausts the buffer calls
`originalEnd` synchronously). -/
def dripEndTime (body : List Nat) : Nat :=
  (((dripTicks body).map Tick.time).getLast?).getD 0

/-- Scheduled time of the first drip tick. -/
def dripFirstTickTime (body : List Nat) : Nat :=
  (((dripTicks body).map Tick.time).head?).getD 0

/-- The source `drip` consults no connection state whatsoever (there is no
check of socket liveness anywhere in lines 91-103).  To state claims about
connection close we pass a close schedule (`closed t` = connection already
closed at time `t`) as an argument; the translated body, being identical to
`dripGo`, never reads it. -/
def dripGoClosed (closed : Nat → Bool) (C I : Nat) (body : List Nat) :
    Nat → Nat → Nat → List Tick
  | 0, _, _ => []
  | fuel + 1, offset, t =>
    let e := min (offset + C) body.length
    let piece := (body.drop offset).take (e - offset)
    if body.length ≤ e then
      [⟨t, offset, e, piece⟩]
    else
      ⟨t, offset, e, piece⟩ :: dripGoClosed closed C I body fuel e (t + I)

def dripTicksClosed (closed : Nat → Bool) (body : List Nat) : List Tick :=
  dripGoClosed closed CHUNK_SIZE CHUNK_INTERVAL body body.length 0 MODEM_LATENCY

/-! ### The wrapped response sink (src/server.js lines 58-106)

`res.write` / `res.end` / `res.redirect` are monkey-patched per request.  We
model the observable effect on the underlying transport as a list of events,
each carrying the absolute scheduled delay (0 = synchronous/immediate) at
which it reaches the underlying sink. -/

inductive Ev where
  | write (piece : List Nat) (time : Nat)
  | finalize (time : Nat)
  | redirect
deriving DecidableEq

structure ResSt where
  /-- whether `res.write` / `res.end` currently are the wrapper versions -/
  wrapped : Bool
  /-- the `chunks` array of buffered writes -/
  buffered : List (List Nat)
  /-- events delivered (or scheduled for delivery) to the underlying sink -/
  out : List Ev
deriving DecidableEq

def initSt (wrap : Bool) : ResSt := ⟨wrap, [], []⟩

/-- `res.write(chunk)` (lines 71-76 when wrapped, the original method
otherwise).  Wrapped: push onto `chunks`, forward nothing, report success.
Unwrapped: the original write forwards the bytes immediately.  A call with a
null/absent chunk is modelled as not calling `doWrite` at all. -/
def doWrite (s : ResSt) (chunk : List Nat) : ResSt :=
  if s.wrapped then { s with buffered := s.buffered ++ [chunk] }
  else { s with out := s.out ++ [Ev.write chunk 0] }

/-- The event sequence produced by the drip chain scheduled on line 103: the
buffered body's drip writes, then the underlying `end` (called with no data
by the final tick, line 97). -/
def dripEvents (body : List Nat) : List Ev :=
  ((dripTicks body).map (fun k => Ev.write k.piece k.time)) ++
    [Ev.finalize (dripEndTime body)]

/-- `res.end(chunk)` (lines 78-104 when wrapped, the original otherwise).
Wrapped: append a non-empty final chunk, concatenate the buffer; an empty
body delegates to the original `end` immediately (line 87); otherwise the
drip chain is scheduled.  Unwrapped: the original `end` writes the optional
final chunk and finalizes immediately. -/
def doEnd (s : ResSt) (final : Option (List Nat)) : ResSt :=
  if s.wrapped then
    let chunks := s.buffered ++ (match final with
      | some c => if 0 < c.length then [c] else []
      | none => [])
    let body := chunks.flatten
    if body.length = 0 then { s with out := s.out ++ [Ev.finalize 0] }
    else { s with out := s.out ++ dripEvents body }
  else
    { s with out := s.out ++ (match final with
        | some c => [Ev.write c 0]
        | none => []) ++ [Ev.finalize 0] }

/-- `res.redirect` as patched on lines 60-65: restore the original `write`
and `end`, then perform the original redirect immediately (the buffered
chunks are simply never flushed). -/
def doRedirect (s : ResSt) : ResSt :=
  { s with wrapped := false, out := s.out ++ [Ev.redirect] }

/-- The wrapping decision of `modemThrottle` (lines 52-56): no wrapping when
modem mode is off, no wrapping when the request carries `?turbo=1`;
otherwise the response is wrapped.  `modemMode` abstracts the
environment-derived `MODEM_MODE` constant of line 45. -/
def modemThrottleWraps (modemMode : Bool) (turbo : Option (List Char)) : Bool :=
  if modemMode = false then false
  else if turbo = some ['1'] then false
  else true

/-! ### HTML escaping (src/server.js lines 145-153) -/

def quotChar : Char := Char.ofNat 34

def aposChar : Char := Char.ofNat 39

/-- replacement text of `.replace(/&/g, ...)`, i.e. the five characters of
the amp entity -/
def ampEnt : List Char := ['&', 'a', 'm', 'p', ';']

def ltEnt : List Char := ['&', 'l', 't', ';']

def gtEnt : List Char := ['&', 'g', 't', ';']

def quotEnt : List Char := ['&', 'q', 'u', 'o', 't', ';']

/-- the entity for the apostrophe, written with a numeric reference in the
source -/
def aposEnt : List Char := ['&', '#', '0', '3', '9', ';']

def entities : List (List Char) := [ampEnt, ltEnt, gtEnt, quotEnt, aposEnt]

/-- `str.replace(/t/g, rep)` for a single-character pattern `t`. -/
def replaceChar (target : Char) (rep : List Char) : List Char → List Char
  | [] => []
  | c :: cs => (if c = target then rep else [c]) ++ replaceChar target rep cs

/-- `escapeHtml` (lines 145-153): `if (!str) return ''` (a null or empty
string argument yields the empty string; we model strings as `List Char`, so
both map to `[]`), then the five global replaces in source order:
`&`, `<`, `>`, `"`, `'`. -/
def escapeHtml (s : List Char) : List Char :=
  if s = [] then []
  else
    replaceChar aposChar aposEnt
      (replaceChar quotChar quotEnt
        (replaceChar '>' gtEnt
          (replaceChar '<' ltEnt
            (replaceChar '&' ampEnt s))))

/-- The per-character effect of the five sequential replaces (proved below to
agree with `escapeHtml`). -/
def escChar (c : Char) : List Char :=
  if c = '&' then ampEnt
  else if c = '<' then ltEnt
  else if c = '>' then gtEnt
  else if c = quotChar then quotEnt
  else if c = aposChar then aposEnt
  else [c]

/-- Checks the head of a list: if it is `&`, some entity must start there. -/
def ampCheck : List Char → Bool
  | [] => true
  | c :: rest =>
    if c = '&' then entities.any (fun e => List.isPrefixOf e (c :: rest))
    else true

/-! ### Guestbook entries and rendering (src/server.js lines 179-195) -/

structure Entry where
  name : List Char
  url : List Char
  message : List Char
  favorite : List Char
  date : List Char
deriving DecidableEq

def tpl1 : List Char := ("  <div class=\"gb-entry\">\n    <span class=\"gb-date\">").toList

def tpl2 : List Char := ("</span>\n    <span class=\"gb-name\">").toList

def tpl3 : List Char := ("</span>\n    <div class=\"gb-message\">\n      ").toList

def tpl4 : List Char := ("\n    </div>\n  </div>\n").toList

def aOpen : List Char := ("<a href=\"").toList

def aMid : List Char := ("\">").toList

def aClose : List Char := ("</a>").toList

def favOpen : List Char :=
  ("<br><span style=\"font-size: 10px; color: #888;\">Favorite game: ").toList

def favClose : List Char := ("</span>").toList

/-- `renderEntry` (lines 179-195).  JS truthiness of the `entry.url` /
`entry.favorite` strings is modelled as non-emptiness. -/
def renderEntry (e : Entry) : List Char :=
  let nameHtml :=
    if e.url = [] then escapeHtml e.name
    else aOpen ++ escapeHtml e.url ++ aMid ++ escapeHtml e.name ++ aClose
  let favHtml :=
    if e.favorite = [] then []
    else favOpen ++ escapeHtml e.favorite ++ favClose
  tpl1 ++ escapeHtml e.date ++ tpl2 ++ nameHtml ++ tpl3 ++ escapeHtml e.message
    ++ favHtml ++ tpl4

/-! ### The POST /sign-guestbook handler (src/server.js lines 293-343) -/

/-- ASCII whitespace stripped by `String.prototype.trim` (the source calls
the JS builtin; Unicode space classes beyond ASCII are not modelled). -/
def isJsSpace (c : Char) : Bool :=
  c = ' ' || c = '\t' || c = '\n' || c = '\r' || c = Char.ofNat 11 || c = Char.ofNat 12

def jsTrim (s : List Char) : List Char :=
  ((s.dropWhile isJsSpace).reverse.dropWhile isJsSpace).reverse

/-- `favoriteLabel` (lines 169-176): `map[value] || value || ''`. -/
def favoriteLabel (value : List Char) : List Char :=
  if value = ("somi").toList then ("The Secret of Monkey Island").toList
  else if value = ("mi2").toList then ("Monkey Island 2: LeChuck\x27s Revenge").toList
  else if value = ("comi").toList then ("The Curse of Monkey Island").toList
  else value

/-- The 400 page sent when name or message is missing (lines 301-307). -/
def errBodyMissing : List Char :=
  ("<html><body style=\"background:#000;color:#dd5500;font-family:Comic Sans MS,Verdana;text-align:center;padding:40px;\">"
    ++ "<h2>Arrr! Something went wrong!</h2>"
    ++ "<p style=\"color:#ccc;\">You must provide both a name and a message, ye scurvy dog!</p>"
    ++ "<p><a href=\"/guestbook.html\" style=\"color:#6677cc;\">Back to the Guestbook</a></p>"
    ++ "</body></html>").toList

/-- The 400 page sent when name or message is too long (lines 313-319). -/
def errBodyTooLong : List Char :=
  ("<html><body style=\"background:#000;color:#dd5500;font-family:Comic Sans MS,Verdana;text-align:center;padding:40px;\">"
    ++ "<h2>Arrr! Too many words!</h2>"
    ++ "<p style=\"color:#ccc;\">Keep your name under 50 characters and your message under 1000, matey!</p>"
    ++ "<p><a href=\"/guestbook.html\" style=\"color:#6677cc;\">Back to the Guestbook</a></p>"
    ++ "</body></html>").toList

structure GBResult where
  status : Nat
  body : List Char
  redirected : Bool
  entries : List Entry
deriving DecidableEq

/-- The `POST /sign-guestbook` handler (lines 293-343).  `now` stands for
`formatDate(new Date())`; persistence (`readEntries`/`writeEntries`) is
modelled by threading the entry list through. -/
def signGuestbook (rawName rawMessage rawUrl rawFavorite : List Char)
    (entries : List Entry) (now : List Char) : GBResult :=
  let name := jsTrim rawName
  let message := jsTrim rawMessage
  let url := jsTrim rawUrl
  let favorite := rawFavorite
  if name = [] ∨ message = [] then
    ⟨400, errBodyMissing, false, entries⟩
  else if 50 < name.length ∨ 1000 < message.length then
    ⟨400, errBodyTooLong, false, entries⟩
  else
    let cleanUrl :=
      if url ≠ [] ∧ url ≠ ("http://").toList ∧ url ≠ ("https://").toList then url
      else []
    let entry : Entry := ⟨name, cleanUrl, message, favoriteLabel favorite, now⟩
    ⟨302, [], true, entries ++ [entry]⟩

/-! ## Helper lemmas -/

theorem dripGo_succ (C I : Nat) (body : List Nat) (fuel offset t : Nat) :
    dripGo C I body (fuel + 1) offset t =
      if body.length ≤ min (offset + C) body.length then
        [⟨t, offset, min (offset + C) body.length,
          (body.drop offset).take (min (offset + C) body.length - offset)⟩]
      else
        ⟨t, offset, min (offset + C) body.length,
          (body.drop offset).take (min (offset + C) body.length - offset)⟩ ::
          dripGo C I body fuel (min (offset + C) body.length) (t + I) := rfl

theorem ceilDiv_pos_eq (L C : Nat) (hL : 0 < L) (hC : 0 < C) :
    ceilDiv L C = (L - 1) / C + 1 := by
  unfold ceilDiv
  have h : L + C - 1 = (L - 1) + C := by omega
  rw [h, Nat.add_div_right _ hC]

theorem ceilDiv_eq_one (L C : Nat) (hL : 0 < L) (hLC : L ≤ C) :
    ceilDiv L C = 1 := by
  have hC : 0 < C := Nat.lt_of_lt_of_le hL hLC
  rw [ceilDiv_pos_eq L C hL hC, Nat.div_eq_of_lt (by omega)]

theorem ceilDiv_sub (L C : Nat) (hC : 0 < C) (h : C < L) :
    ceilDiv L C = ceilDiv (L - C) C + 1 := by
  rw [ceilDiv_pos_eq L C (by omega) hC, ceilDiv_pos_eq (L - C) C (by omega) hC]
  have h2 : L - 1 = (L - C - 1) + C := by omega
  rw [h2, Nat.add_div_right _ hC]

theorem le_ceilDiv_mul (L C : Nat) (hL : 0 < L) (hC : 0 < C) :
    L ≤ ceilDiv L C * C := by
  rw [ceilDiv_pos_eq L C hL hC]
  have h := (Nat.div_lt_iff_lt_mul hC).mp (Nat.lt_succ_self ((L - 1) / C))
  exact Nat.le_of_pred_lt h

theorem ceilDiv_pred_mul_lt (L C : Nat) (hL : 0 < L) (hC : 0 < C) :
    (ceilDiv L C - 1) * C < L := by
  rw [ceilDiv_pos_eq L C hL hC]
  simp only [Nat.add_sub_cancel]
  exact Nat.lt_of_le_of_lt (Nat.div_mul_le_self (L - 1) C) (Nat.sub_lt hL Nat.one_pos)

theorem mul_lt_of_succ_lt_ceilDiv (L C i : Nat) (hL : 0 < L) (hC : 0 < C)
    (hi : i + 1 < ceilDiv L C) : (i + 1) * C < L := by
  have h1 : (i + 1) * C ≤ (ceilDiv L C - 1) * C := Nat.mul_le_mul_right C (by omega)
  exact Nat.lt_of_le_of_lt h1 (ceilDiv_pred_mul_lt L C hL hC)

theorem dripGo_length (C I : Nat) (body : List Nat) :
    ∀ (fuel offset t : Nat), 0 < C → offset < body.length →
      body.length - offset ≤ fuel →
      (dripGo C I body fuel offset t).length = ceilDiv (body.length - offset) C := by
  intro fuel
  induction fuel with
  | zero =>
    intro offset t hC hoff hfuel
    exact absurd hoff (by omega)
  | succ fuel ih =>
    intro offset t hC hoff hfuel
    rw [dripGo_succ]
    by_cases h : body.length ≤ min (offset + C) body.length
    · rw [if_pos h]
      have h1 : body.length ≤ offset + C := by
        rcases Nat.le_total (offset + C) body.length with h2 | h2
        · rw [Nat.min_eq_left h2] at h; omega
        · exact h2
      simp only [List.length_cons, List.length_nil]
      rw [ceilDiv_eq_one _ C (by omega) (by omega)]
    · rw [if_neg h]
      push_neg at h
      have he : min (offset + C) body.length = offset + C := by
        rcases Nat.le_total (offset + C) body.length with h2 | h2
        · exact Nat.min_eq_left h2
        · rw [Nat.min_eq_right h2] at h; omega
      have hlt : offset + C < body.length := by rw [he] at h; exact h
      rw [he]
      simp only [List.length_cons]
      rw [ih (offset + C) (t + I) hC hlt (by omega)]
      rw [ceilDiv_sub (body.length - offset) C hC (by omega), Nat.sub_sub]

theorem dripGo_get (C I : Nat) (body : List Nat) :
    ∀ (fuel offset t : Nat), 0 < C → offset < body.length →
      body.length - offset ≤ fuel →
      ∀ (i : Nat) (hi : i < (dripGo C I body fuel offset t).length),
        (dripGo C I body fuel offset t).get ⟨i, hi⟩ =
          ⟨t + i * I, offset + i * C, min (offset + (i + 1) * C) body.length,
            (body.drop (offset + i * C)).take
              (min (offset + (i + 1) * C) body.length - (offset + i * C))⟩ := by
  intro fuel
  induction fuel with
  | zero =>
    intro offset t hC hoff hfuel
    exact absurd hoff (by omega)
  | succ fuel ih =>
    intro offset t hC hoff hfuel i hi
    by_cases h : body.length ≤ min (offset + C) body.length
    · have hlen : (dripGo C I body (fuel + 1) offset t).length = 1 := by
        rw [dripGo_succ, if_pos h]; rfl
      have hi0 : i = 0 := by omega
      subst hi0
      have hget : (dripGo C I body (fuel + 1) offset t).get ⟨0, hi⟩ =
          ⟨t, offset, min (offset + C) body.length,
            (body.drop offset).take (min (offset + C) body.length - offset)⟩ := by
        have := dripGo_succ C I body fuel offset t
        rw [if_pos h] at this
        simp [this]
      rw [hget]
      simp
    · have he : min (offset + C) body.length = offset + C := by
        push_neg at h
        rcases Nat.le_total (offset + C) body.length with h2 | h2
        · exact Nat.min_eq_left h2
        · rw [Nat.min_eq_right h2] at h; omega
      have hlt : offset + C < body.length := by
        push_neg at h; rw [he] at h; exact h
      have hcons : dripGo C I body (fuel + 1) offset t =
          ⟨t, offset, offset + C, (body.drop offset).take (offset + C - offset)⟩ ::
            dripGo C I body fuel (offset + C) (t + I) := by
        rw [dripGo_succ, if_neg h, he]
      rcases i with _ | i
      · rw [List.get_of_eq hcons ⟨0, hi⟩]
        simp [he]
      · have hi' : i < (dripGo C I body fuel (offset + C) (t + I)).length := by
          rw [hcons] at hi
          simpa using hi
        rw [List.get_of_eq hcons ⟨i + 1, hi⟩, List.get_cons_succ]
        rw [ih (offset + C) (t + I) hC hlt (by omega) i hi']
        have e1 : (t + I) + i * I = t + (i + 1) * I := by ring
        have e2 : (offset + C) + i * C = offset + (i + 1) * C := by ring
        have e3 : (offset + C) + (i + 1) * C = offset + (i + 1 + 1) * C := by ring
        rw [e1, e2, e3]

theorem dripGo_join (C I : Nat) (body : List Nat) :
    ∀ (fuel offset t : Nat), 0 < C → offset < body.length →
      body.length - offset ≤ fuel →
      ((dripGo C I body fuel offset t).map Tick.piece).flatten = body.drop offset := by
  intro fuel
  induction fuel with
  | zero =>
    intro offset t hC hoff hfuel
    exact absurd hoff (by omega)
  | succ fuel ih =>
    intro offset t hC hoff hfuel
    rw [dripGo_succ]
    by_cases h : body.length ≤ min (offset + C) body.length
    · rw [if_pos h]
      have h1 : min (offset + C) body.length = body.length := by
        have := Nat.min_le_right (offset + C) body.length
        omega
      rw [h1]
      simp only [List.map_cons, List.map_nil, List.flatten_cons, List.flatten_nil,
        List.append_nil]
      have h2 : body.length - offset = (body.drop offset).length := by
        rw [List.length_drop]
      rw [h2, List.take_length]
    · rw [if_neg h]
      have he : min (offset + C) body.length = offset + C := by
        push_neg at h
        rcases Nat.le_total (offset + C) body.length with h2 | h2
        · exact Nat.min_eq_left h2
        · rw [Nat.min_eq_right h2] at h; omega
      have hlt : offset + C < body.length := by
        push_neg at h; rw [he] at h; exact h
      rw [he]
      simp only [List.map_cons, List.flatten_cons]
      rw [ih (offset + C) (t + I) hC hlt (by omega)]
      have h3 : offset + C - offset = C := by omega
      rw [h3]
      have h4 : body.drop (offset + C) = (body.drop offset).drop C := by
        rw [List.drop_drop]
      rw [h4, List.take_append_drop]

theorem ceilDiv_pos (L C : Nat) (hL : 0 < L) (hC : 0 < C) : 0 < ceilDiv L C := by
  rw [ceilDiv_pos_eq L C hL hC]
  exact Nat.succ_pos _

theorem CHUNK_SIZE_pos : 0 < CHUNK_SIZE := by decide

theorem dripTicks_length (body : List Nat) (h : 0 < body.length) :
    (dripTicks body).length = ceilDiv body.length CHUNK_SIZE := by
  unfold dripTicks
  rw [dripGo_length CHUNK_SIZE CHUNK_INTERVAL body body.length 0 MODEM_LATENCY
    CHUNK_SIZE_pos h (by omega), Nat.sub_zero]

theorem dripTicks_get (body : List Nat) (h : 0 < body.length)
    (i : Nat) (hi : i < (dripTicks body).length) :
    (dripTicks body).get ⟨i, hi⟩ =
      ⟨MODEM_LATENCY + i * CHUNK_INTERVAL, i * CHUNK_SIZE,
        min ((i + 1) * CHUNK_SIZE) body.length,
        (body.drop (i * CHUNK_SIZE)).take
          (min ((i + 1) * CHUNK_SIZE) body.length - i * CHUNK_SIZE)⟩ := by
  have hg := dripGo_get CHUNK_SIZE CHUNK_INTERVAL body body.length 0 MODEM_LATENCY
    CHUNK_SIZE_pos h (by omega) i hi
  simpa using hg

theorem dripTicks_pos (body : List Nat) (h : 0 < body.length) :
    0 < (dripTicks body).length := by
  rw [dripTicks_length body h]
  exact ceilDiv_pos _ _ h CHUNK_SIZE_pos

theorem dripEndTime_eq (body : List Nat) (h : 0 < body.length) :
    dripEndTime body =
      MODEM_LATENCY + (ceilDiv body.length CHUNK_SIZE - 1) * CHUNK_INTERVAL := by
  have hlen := dripTicks_length body h
  have hpos : 0 < (dripTicks body).length := dripTicks_pos body h
  have hidx : (dripTicks body).length - 1 < (dripTicks body).length := by omega
  have hg := dripTicks_get body h ((dripTicks body).length - 1) hidx
  unfold dripEndTime
  rw [List.getLast?_eq_getElem?, List.length_map,
    List.getElem?_eq_getElem (by rw [List.length_map]; omega), Option.getD_some,
    List.getElem_map]
  exact (congrArg Tick.time hg).trans (by rw [hlen])

theorem dripFirstTickTime_eq (body : List Nat) (h : 0 < body.length) :
    dripFirstTickTime body = MODEM_LATENCY := by
  have hpos : 0 < (dripTicks body).length := dripTicks_pos body h
  have hg := dripTicks_get body h 0 hpos
  unfold dripFirstTickTime
  rw [List.head?_eq_getElem?,
    List.getElem?_eq_getElem (by rw [List.length_map]; omega), Option.getD_some,
    List.getElem_map]
  exact (congrArg Tick.time hg).trans (by simp)

theorem dripGoClosed_succ (closed : Nat → Bool) (C I : Nat) (body : List Nat)
    (fuel offset t : Nat) :
    dripGoClosed closed C I body (fuel + 1) offset t =
      if body.length ≤ min (offset + C) body.length then
        [⟨t, offset, min (offset + C) body.length,
          (body.drop offset).take (min (offset + C) body.length - offset)⟩]
      else
        ⟨t, offset, min (offset + C) body.length,
          (body.drop offset).take (min (offset + C) body.length - offset)⟩ ::
          dripGoClosed closed C I body fuel (min (offset + C) body.length) (t + I) := rfl

theorem dripGoClosed_eq (closed : Nat → Bool) (C I : Nat) (body : List Nat) :
    ∀ (fuel offset t : Nat),
      dripGoClosed closed C I body fuel offset t = dripGo C I body fuel offset t := by
  intro fuel
  induction fuel with
  | zero => intro offset t; rfl
  | succ fuel ih =>
    intro offset t
    rw [dripGoClosed_succ, dripGo_succ]
    by_cases h : body.length ≤ min (offset + C) body.length
    · rw [if_pos h, if_pos h]
    · rw [if_neg h, if_neg h, ih]

theorem dripGo_sched_eq (C I : Nat) (b1 b2 : List Nat) (hlen : b1.length = b2.length) :
    ∀ (fuel offset t : Nat),
      (dripGo C I b1 fuel offset t).map
          (fun k => (k.time, k.start, k.stop, k.piece.length)) =
        (dripGo C I b2 fuel offset t).map
          (fun k => (k.time, k.start, k.stop, k.piece.length)) := by
  intro fuel
  induction fuel with
  | zero => intro offset t; rfl
  | succ fuel ih =>
    intro offset t
    rw [dripGo_succ, dripGo_succ, ← hlen]
    by_cases h : b1.length ≤ min (offset + C) b1.length
    · rw [if_pos h, if_pos h]
      simp [List.length_take, List.length_drop, hlen]
    · rw [if_neg h, if_neg h]
      simp only [List.map_cons]
      congr 1
      · simp [List.length_take, List.length_drop, hlen]
      · exact ih _ _

theorem foldl_doWrite_wrapped (ws : List (List Nat)) :
    ∀ (b : List (List Nat)) (o : List Ev),
      ws.foldl doWrite ⟨true, b, o⟩ = ⟨true, b ++ ws, o⟩ := by
  induction ws with
  | nil => intro b o; simp
  | cons c ws ih =>
    intro b o
    rw [List.foldl_cons]
    have h : doWrite ⟨true, b, o⟩ c = ⟨true, b ++ [c], o⟩ := rfl
    rw [h, ih]
    simp

theorem foldl_doWrite_unwrapped (ws : List (List Nat)) :
    ∀ (b : List (List Nat)) (o : List Ev),
      ws.foldl doWrite ⟨false, b, o⟩ =
        ⟨false, b, o ++ ws.map (fun c => Ev.write c 0)⟩ := by
  induction ws with
  | nil => intro b o; simp
  | cons c ws ih =>
    intro b o
    rw [List.foldl_cons]
    have h : doWrite ⟨false, b, o⟩ c = ⟨false, b, o ++ [Ev.write c 0]⟩ := rfl
    rw [h, ih]
    simp

/-! ## Claim theorems -/

/-- C1: for every finalized body of length `L > 0` the drip scheduler delivers
exactly `ceil(L / CHUNK_SIZE)` pieces, every piece except possibly the last
has length exactly `CHUNK_SIZE`, the pieces are contiguous (the first starts
at cursor 0 and each next piece starts where the previous stopped),
non-overlapping and in order, their concatenation in delivery order is the
body byte-for-byte, and the drip cursor is monotone and reaches `L` exactly
at the final tick and only there. -/
theorem drip_piecewise_delivery (body : List Nat) (h : 0 < body.length) :
    (dripTicks body).length = ceilDiv body.length CHUNK_SIZE ∧
    ((dripTicks body).map Tick.piece).flatten = body ∧
    (∀ (i : Nat) (hi : i < (dripTicks body).length),
      i + 1 < (dripTicks body).length →
      ((dripTicks body).get ⟨i, hi⟩).piece.length = CHUNK_SIZE) ∧
    (∀ (h0 : 0 < (dripTicks body).length),
      ((dripTicks body).get ⟨0, h0⟩).start = 0) ∧
    (∀ (i : Nat) (hi : i < (dripTicks body).length)
      (hi' : i + 1 < (dripTicks body).length),
      ((dripTicks body).get ⟨i + 1, hi'⟩).start = ((dripTicks body).get ⟨i, hi⟩).stop) ∧
    (∀ (i j : Nat) (hi : i < (dripTicks body).length)
      (hj : j < (dripTicks body).length), i ≤ j →
      ((dripTicks body).get ⟨i, hi⟩).stop ≤ ((dripTicks body).get ⟨j, hj⟩).stop) ∧
    (∀ (i : Nat) (hi : i < (dripTicks body).length),
      ((dripTicks body).get ⟨i, hi⟩).stop = body.length ↔
        i = (dripTicks body).length - 1) := by
  have hlen := dripTicks_length body h
  refine ⟨hlen, ?_, ?_, ?_, ?_, ?_, ?_⟩
  · have hj := dripGo_join CHUNK_SIZE CHUNK_INTERVAL body body.length 0 MODEM_LATENCY
      CHUNK_SIZE_pos h (by omega)
    rw [List.drop_zero] at hj
    exact hj
  · intro i hi hi1
    have hiC : (i + 1) * CHUNK_SIZE < body.length := by
      refine mul_lt_of_succ_lt_ceilDiv body.length CHUNK_SIZE i h CHUNK_SIZE_pos ?_
      rw [← hlen]
      exact hi1
    rw [dripTicks_get body h i hi]
    show ((body.drop (i * CHUNK_SIZE)).take
      (min ((i + 1) * CHUNK_SIZE) body.length - i * CHUNK_SIZE)).length = CHUNK_SIZE
    rw [Nat.min_eq_left (Nat.le_of_lt hiC)]
    have e1 : (i + 1) * CHUNK_SIZE = i * CHUNK_SIZE + CHUNK_SIZE := Nat.succ_mul i CHUNK_SIZE
    rw [e1, Nat.add_sub_cancel_left, List.length_take, List.length_drop]
    refine Nat.min_eq_left ?_
    refine Nat.le_sub_of_add_le ?_
    rw [Nat.add_comm]
    rw [e1] at hiC
    exact Nat.le_of_lt hiC
  · intro h0
    rw [dripTicks_get body h 0 h0]
    show 0 * CHUNK_SIZE = 0
    simp
  · intro i hi hi'
    have hiC : (i + 1) * CHUNK_SIZE < body.length := by
      refine mul_lt_of_succ_lt_ceilDiv body.length CHUNK_SIZE i h CHUNK_SIZE_pos ?_
      rw [← hlen]
      exact hi'
    rw [dripTicks_get body h (i + 1) hi', dripTicks_get body h i hi]
    show (i + 1) * CHUNK_SIZE = min ((i + 1) * CHUNK_SIZE) body.length
    rw [Nat.min_eq_left (Nat.le_of_lt hiC)]
  · intro i j hi hj hij
    rw [dripTicks_get body h i hi, dripTicks_get body h j hj]
    show min ((i + 1) * CHUNK_SIZE) body.length ≤ min ((j + 1) * CHUNK_SIZE) body.length
    have hmul : (i + 1) * CHUNK_SIZE ≤ (j + 1) * CHUNK_SIZE :=
      Nat.mul_le_mul_right _ (by omega)
    exact min_le_min hmul (Nat.le_refl _)
  · intro i hi
    rw [dripTicks_get body h i hi]
    show min ((i + 1) * CHUNK_SIZE) body.length = body.length ↔
      i = (dripTicks body).length - 1
    have hin : i < ceilDiv body.length CHUNK_SIZE := by rw [← hlen]; exact hi
    have hnpos : 0 < ceilDiv body.length CHUNK_SIZE := ceilDiv_pos _ _ h CHUNK_SIZE_pos
    rw [hlen]
    constructor
    · intro hstop
      by_contra hne
      have hi1 : i + 1 < ceilDiv body.length CHUNK_SIZE := by omega
      have hlt := mul_lt_of_succ_lt_ceilDiv body.length CHUNK_SIZE i h CHUNK_SIZE_pos hi1
      rw [Nat.min_eq_left (Nat.le_of_lt hlt)] at hstop
      exact absurd hstop (Nat.ne_of_lt hlt)
    · intro hieq
      subst hieq
      refine Nat.min_eq_right ?_
      have e1 : ceilDiv body.length CHUNK_SIZE - 1 + 1 = ceilDiv body.length CHUNK_SIZE := by
        omega
      rw [e1]
      exact le_ceilDiv_mul body.length CHUNK_SIZE h CHUNK_SIZE_pos

/-- Witness for C1 at the concrete three-byte body `[7, 8, 9]`. -/
theorem drip_piecewise_delivery_witness :
    ((dripTicks [7, 8, 9]).map Tick.piece).flatten = [7, 8, 9] ∧
    (dripTicks [7, 8, 9]).length = ceilDiv 3 CHUNK_SIZE := by
  have hd := drip_piecewise_delivery [7, 8, 9] (by decide)
  exact ⟨hd.2.1, hd.1⟩

/-- C2 counterexample: for the one-byte body `[5]` the sum of the `setTimeout`
delays from finalize to the underlying finalize call is 120 ms
(`MODEM_LATENCY` alone: the single tick writes the whole body and calls the
underlying finalize synchronously), while the claimed formula
`initial_latency + ceil(L/C) * tick_interval` gives 170 ms — the claim
overstates the schedule by exactly one full tick interval.  The claimed
elapsed time between the first scheduled tick and the final finalize call is
the same 170 ms formula, while the actual elapsed time is 0 ms. -/
theorem drip_total_time_claim_counterexample :
    dripEndTime [5] = 120 ∧
    MODEM_LATENCY + ceilDiv (List.length [5]) CHUNK_SIZE * CHUNK_INTERVAL = 170 ∧
    dripEndTime [5] ≠
      MODEM_LATENCY + ceilDiv (List.length [5]) CHUNK_SIZE * CHUNK_INTERVAL ∧
    (MODEM_LATENCY + ceilDiv (List.length [5]) CHUNK_SIZE * CHUNK_INTERVAL)
      - dripEndTime [5] = CHUNK_INTERVAL ∧
    dripFirstTickTime [5] = 120 ∧
    dripEndTime [5] - dripFirstTickTime [5] = 0 := by
  decide

/-- C2 amended: the exact total scheduled time from finalize on the wrapped
sink to the underlying finalize call is
`initial_latency + (ceil(L/C) - 1) * tick_interval` (one tick interval less
than claimed: the final tick finalizes synchronously after its write), and
the elapsed time between the first scheduled tick and the underlying
finalize is `(ceil(L/C) - 1) * tick_interval`. -/
theorem drip_total_time_exact (body : List Nat) (h : 0 < body.length) :
    dripEndTime body =
      MODEM_LATENCY + (ceilDiv body.length CHUNK_SIZE - 1) * CHUNK_INTERVAL ∧
    dripFirstTickTime body = MODEM_LATENCY ∧
    dripEndTime body - dripFirstTickTime body =
      (ceilDiv body.length CHUNK_SIZE - 1) * CHUNK_INTERVAL := by
  refine ⟨dripEndTime_eq body h, dripFirstTickTime_eq body h, ?_⟩
  rw [dripEndTime_eq body h, dripFirstTickTime_eq body h]
  omega

/-- Witness for the amended C2 at the 900-byte body: finalize scheduled at
`120 + 2 * 50 = 220` ms. -/
theorem drip_total_time_exact_witness :
    dripEndTime (List.replicate 900 37) =
      MODEM_LATENCY +
        (ceilDiv (List.replicate 900 37).length CHUNK_SIZE - 1) * CHUNK_INTERVAL ∧
    dripEndTime (List.replicate 900 37) = 220 := by
  have hd := drip_total_time_exact (List.replicate 900 37) (by simp)
  refine ⟨hd.1, ?_⟩
  rw [hd.1]
  decide

/-- C6 counterexample: the startup path contains no guard at all — a
parameter combination whose derived chunk size is 0 (here a 0 bit/s bitrate
with the 50 ms interval) is accepted rather than rejected fatally. -/
theorem chunk_guard_absence_counterexample :
    startupAcceptsConfig 0 50 = true ∧ chunkSizeOf 0 50 = 0 := by
  decide

/-- C6 amended: there is no startup guard, but none is reachable: the
configuration is hard-coded (`MODEM_BPS = 56000`, `CHUNK_INTERVAL = 50`), the
derived `CHUNK_SIZE` is the constant 350, hence `CHUNK_SIZE > 0` holds
whenever the drip scheduler runs. -/
theorem chunk_size_constant_positive :
    CHUNK_SIZE = chunkSizeOf MODEM_BPS CHUNK_INTERVAL ∧
    CHUNK_SIZE = 350 ∧
    0 < CHUNK_SIZE := by
  decide

/-- C7 counterexample: with the connection closed from time 0 on (before the
first tick ever fires), the drip chain over a 400-byte body still performs
its first write at 120 ms and still rearms and writes again at 170 ms —
no tick detects the closed sink. -/
theorem close_detection_counterexample :
    ((dripTicksClosed (fun _ => true) (List.replicate 400 7)).map Tick.time) =
      [120, 170] ∧
    1 < (dripTicksClosed (fun _ => true) (List.replicate 400 7)).length := by
  constructor
  · decide
  · decide

/-- C7 amended: the drip scheduler never consults connection state — its
trace is identical for every close schedule (in particular writes and
rearms continue after a close).  The rearming does stop once the buffer is
drained: the trace is finite with exactly `ceil(L/C)` ticks. -/
theorem drip_ignores_close (closed : Nat → Bool) (body : List Nat) :
    dripTicksClosed closed body = dripTicks body := by
  unfold dripTicksClosed dripTicks
  exact dripGoClosed_eq closed CHUNK_SIZE CHUNK_INTERVAL body body.length 0 MODEM_LATENCY

/-- C8: with `chunk_size = 350`, `tick_interval = 50`, `initial_latency =
120` (derived from `MODEM_BPS = 56000`), a 900-byte body is delivered as
exactly 3 pieces of sizes 350, 350, 200 scheduled at 120 ms, 170 ms and
220 ms after finalize, with the underlying finalize scheduled at 220 ms. -/
theorem concrete_900_byte_schedule :
    CHUNK_SIZE = 350 ∧ CHUNK_INTERVAL = 50 ∧ MODEM_LATENCY = 120 ∧
    ((dripTicks (List.replicate 900 37)).map (fun k => k.piece.length)) =
      [350, 350, 200] ∧
    ((dripTicks (List.replicate 900 37)).map Tick.time) = [120, 170, 220] ∧
    dripEndTime (List.replicate 900 37) = 220 := by
  refine ⟨by decide, by decide, by decide, by decide, by decide, by decide⟩

/-- C3: when finalize is invoked on the wrapped sink after any sequence of
writes whose accumulated buffer is empty, and with no non-empty final chunk,
the underlying finalize is invoked immediately (delay 0) with no prior delay
scheduled and no write delivered to the underlying sink. -/
theorem empty_body_immediate_finalize (ws : List (List Nat))
    (final : Option (List Nat)) (hb : ws.flatten = [])
    (hf : ∀ c, final = some c → c = []) :
    doEnd (ws.foldl doWrite (initSt true)) final = ⟨true, ws, [Ev.finalize 0]⟩ := by
  have hst : ws.foldl doWrite (initSt true) = ⟨true, ws, []⟩ := by
    rw [show initSt true = ⟨true, [], []⟩ from rfl, foldl_doWrite_wrapped ws [] []]
    simp
  rw [hst]
  rcases final with _ | c
  · simp [doEnd, hb]
  · have hc : c = [] := hf c rfl
    subst hc
    simp [doEnd, hb]

/-- Witness for C3: two empty buffered writes and no final chunk. -/
theorem empty_body_immediate_finalize_witness :
    doEnd ([[], []].foldl doWrite (initSt true)) none =
      ⟨true, [[], []], [Ev.finalize 0]⟩ := by
  exact empty_body_immediate_finalize [[], []] none (by decide)
    (fun c hc => Option.noConfusion hc)

/-- C4: whatever writes already occurred on the wrapped sink, a redirect
restores the original (unwrapped) write and finalize methods and is emitted
immediately: the only underlying event is the redirect (delay-free, nothing
buffered is flushed — the buffered chunks are discarded), and subsequent
finalize/write calls hit the original methods and pass through immediately. -/
theorem redirect_bypass_restores_sink (ws : List (List Nat)) :
    doRedirect (ws.foldl doWrite (initSt true)) = ⟨false, ws, [Ev.redirect]⟩ ∧
    (doEnd (doRedirect (ws.foldl doWrite (initSt true))) none).out =
      [Ev.redirect, Ev.finalize 0] ∧
    (∀ c : List Nat,
      (doWrite (doRedirect (ws.foldl doWrite (initSt true))) c).out =
        [Ev.redirect, Ev.write c 0]) := by
  have hst : ws.foldl doWrite (initSt true) = ⟨true, ws, []⟩ := by
    rw [show initSt true = ⟨true, [], []⟩ from rfl, foldl_doWrite_wrapped ws [] []]
    simp
  rw [hst]
  exact ⟨rfl, rfl, fun c => rfl⟩

/-- C5: a request with `?turbo=1` is never wrapped (for either value of the
modem-mode flag), and on the unwrapped sink nothing is buffered: every write
and the finalize pass through to the underlying sink unchanged, in order,
with no delay. -/
theorem turbo_bypass_passthrough (mm : Bool) (ws : List (List Nat))
    (final : List Nat) :
    modemThrottleWraps mm (some ['1']) = false ∧
    (ws.foldl doWrite (initSt false)).wrapped = false ∧
    (ws.foldl doWrite (initSt false)).buffered = [] ∧
    (ws.foldl doWrite (initSt false)).out = ws.map (fun c => Ev.write c 0) ∧
    (doEnd (ws.foldl doWrite (initSt false)) (some final)).out =
      ws.map (fun c => Ev.write c 0) ++ [Ev.write final 0, Ev.finalize 0] := by
  have hst : ws.foldl doWrite (initSt false) =
      ⟨false, [], ws.map (fun c => Ev.write c 0)⟩ := by
    rw [show initSt false = ⟨false, [], []⟩ from rfl, foldl_doWrite_unwrapped ws [] []]
    simp
  constructor
  · cases mm <;> decide
  rw [hst]
  refine ⟨rfl, rfl, rfl, ?_⟩
  show ws.map (fun c => Ev.write c 0) ++ [Ev.write final 0] ++ [Ev.finalize 0] = _
  simp

/-! ## HTML-escaping lemmas -/

theorem replaceChar_eq_flatMap (target : Char) (rep : List Char) (s : List Char) :
    replaceChar target rep s =
      s.flatMap (fun c => if c = target then rep else [c]) := by
  induction s with
  | nil => rfl
  | cons c cs ih => simp [replaceChar, List.flatMap_cons, ih]

theorem escapeHtml_eq_flatMap (s : List Char) : escapeHtml s = s.flatMap escChar := by
  by_cases hs : s = []
  · subst hs; rfl
  · unfold escapeHtml
    rw [if_neg hs]
    rw [replaceChar_eq_flatMap, replaceChar_eq_flatMap, replaceChar_eq_flatMap,
      replaceChar_eq_flatMap, replaceChar_eq_flatMap]
    rw [List.flatMap_assoc, List.flatMap_assoc, List.flatMap_assoc, List.flatMap_assoc]
    refine congrArg _ (funext fun c => ?_)
    by_cases h1 : c = '&'
    · subst h1; decide
    · rw [if_neg h1]
      by_cases h2 : c = '<'
      · subst h2; decide
      · by_cases h3 : c = '>'
        · subst h3; decide
        · by_cases h4 : c = quotChar
          · subst h4; decide
          · by_cases h5 : c = aposChar
            · subst h5; decide
            · simp [escChar, h1, h2, h3, h4, h5]

theorem escChar_no_raw (a c : Char) (hc : c ∈ escChar a) :
    c ≠ '<' ∧ c ≠ '>' ∧ c ≠ quotChar ∧ c ≠ aposChar := by
  unfold escChar at hc
  by_cases h1 : a = '&'
  · rw [if_pos h1] at hc
    exact (by decide :
      ∀ x ∈ ampEnt, x ≠ '<' ∧ x ≠ '>' ∧ x ≠ quotChar ∧ x ≠ aposChar) c hc
  · rw [if_neg h1] at hc
    by_cases h2 : a = '<'
    · rw [if_pos h2] at hc
      exact (by decide :
        ∀ x ∈ ltEnt, x ≠ '<' ∧ x ≠ '>' ∧ x ≠ quotChar ∧ x ≠ aposChar) c hc
    · rw [if_neg h2] at hc
      by_cases h3 : a = '>'
      · rw [if_pos h3] at hc
        exact (by decide :
          ∀ x ∈ gtEnt, x ≠ '<' ∧ x ≠ '>' ∧ x ≠ quotChar ∧ x ≠ aposChar) c hc
      · rw [if_neg h3] at hc
        by_cases h4 : a = quotChar
        · rw [if_pos h4] at hc
          exact (by decide :
            ∀ x ∈ quotEnt, x ≠ '<' ∧ x ≠ '>' ∧ x ≠ quotChar ∧ x ≠ aposChar) c hc
        · rw [if_neg h4] at hc
          by_cases h5 : a = aposChar
          · rw [if_pos h5] at hc
            exact (by decide :
              ∀ x ∈ aposEnt, x ≠ '<' ∧ x ≠ '>' ∧ x ≠ quotChar ∧ x ≠ aposChar) c hc
          · rw [if_neg h5] at hc
            have hca : c = a := by simpa using hc
            subst hca
            exact ⟨h2, h3, h4, h5⟩

theorem escapeHtml_no_raw (s : List Char) (c : Char) (hc : c ∈ escapeHtml s) :
    c ≠ '<' ∧ c ≠ '>' ∧ c ≠ quotChar ∧ c ≠ aposChar := by
  rw [escapeHtml_eq_flatMap] at hc
  rcases List.mem_flatMap.mp hc with ⟨a, ha, hca⟩
  exact escChar_no_raw a c hca

theorem isPrefixOf_append_self (p r : List Char) :
    List.isPrefixOf p (p ++ r) = true := by
  induction p with
  | nil => simp [List.isPrefixOf]
  | cons a p ih => simp [List.isPrefixOf, ih]

theorem ampCheck_cons_ne (c : Char) (t : List Char) (h : ¬ c = '&') :
    ampCheck (c :: t) = true := by
  simp [ampCheck, h]

theorem ampCheck_entity (e : List Char) (he : e ∈ entities) (rest : List Char) :
    ampCheck (e ++ rest) = true := by
  rcases e with _ | ⟨c, t⟩
  · exact absurd he (by decide)
  · have hc : c = '&' := by
      have hh := (by decide : ∀ x ∈ entities, x.head? = some '&') _ he
      simpa using hh
    subst hc
    rw [List.cons_append]
    rw [show ampCheck ('&' :: (t ++ rest)) =
      if ('&' : Char) = '&' then
        entities.any (fun e => List.isPrefixOf e ('&' :: (t ++ rest)))
      else true from rfl]
    rw [if_pos rfl, List.any_eq_true]
    refine ⟨'&' :: t, he, ?_⟩
    rw [← List.cons_append]
    exact isPrefixOf_append_self _ _

theorem ampCheck_entity_drop (e : List Char) (he : e ∈ entities) (i : Nat)
    (hi : i < e.length) (rest : List Char) :
    ampCheck (e.drop i ++ rest) = true := by
  rcases Nat.eq_zero_or_pos i with h0 | h1
  · subst h0
    rw [List.drop_zero]
    exact ampCheck_entity e he rest
  · have hne : e.drop i ≠ [] := by
      intro hnil
      have hl := congrArg List.length hnil
      rw [List.length_drop] at hl
      simp at hl
      omega
    rcases List.exists_cons_of_ne_nil hne with ⟨c, t, hct⟩
    have hhead : (e.drop i).head? = some c := by rw [hct]; rfl
    have hc : c ≠ '&' := by
      have hkey : ∀ e' ∈ entities, ∀ i' ∈ List.range e'.length,
          1 ≤ i' → ¬ (e'.drop i').head? = some '&' := by decide
      intro hceq
      subst hceq
      exact hkey e he i (List.mem_range.mpr hi) h1 hhead
    rw [hct, List.cons_append]
    exact ampCheck_cons_ne c (t ++ rest) hc

theorem escChar_cases (a : Char) :
    escChar a ∈ entities ∨ (escChar a = [a] ∧ a ≠ '&') := by
  unfold escChar
  by_cases h1 : a = '&'
  · left; rw [if_pos h1]; decide
  · rw [if_neg h1]
    by_cases h2 : a = '<'
    · left; rw [if_pos h2]; decide
    · rw [if_neg h2]
      by_cases h3 : a = '>'
      · left; rw [if_pos h3]; decide
      · rw [if_neg h3]
        by_cases h4 : a = quotChar
        · left; rw [if_pos h4]; decide
        · rw [if_neg h4]
          by_cases h5 : a = aposChar
          · left; rw [if_pos h5]; decide
          · rw [if_neg h5]
            exact Or.inr ⟨rfl, h1⟩

theorem escapeHtml_amp_entities (s : List Char) (i : Nat) :
    ampCheck ((escapeHtml s).drop i) = true := by
  rw [escapeHtml_eq_flatMap]
  induction s generalizing i with
  | nil =>
    rcases i with _ | i <;> rfl
  | cons a s ih =>
    rw [List.flatMap_cons]
    rcases Nat.lt_or_ge i (escChar a).length with hlt | hge
    · have hdrop : (escChar a ++ s.flatMap escChar).drop i =
          (escChar a).drop i ++ s.flatMap escChar := by
        rw [List.drop_append_eq_append_drop,
          Nat.sub_eq_zero_of_le (Nat.le_of_lt hlt), List.drop_zero]
      rw [hdrop]
      rcases escChar_cases a with hent | ⟨hsing, hne⟩
      · exact ampCheck_entity_drop _ hent i hlt _
      · rw [hsing] at hlt ⊢
        have hi0 : i = 0 := by
          simp only [List.length_cons, List.length_nil] at hlt
          omega
        subst hi0
        rw [List.drop_zero, List.singleton_append]
        exact ampCheck_cons_ne a _ hne
    · have hdrop : (escChar a ++ s.flatMap escChar).drop i =
          (s.flatMap escChar).drop (i - (escChar a).length) := by
        rw [List.drop_append_eq_append_drop,
          List.drop_eq_nil_of_le hge, List.nil_append]
      rw [hdrop]
      exact ih _

theorem escapeHtml_count_lt_zero (s : List Char) : (escapeHtml s).count '<' = 0 := by
  rw [List.count_eq_zero]
  intro hmem
  exact (escapeHtml_no_raw s '<' hmem).1 rfl

theorem escapeHtml_count_gt_zero (s : List Char) : (escapeHtml s).count '>' = 0 := by
  rw [List.count_eq_zero]
  intro hmem
  exact (escapeHtml_no_raw s '>' hmem).2.1 rfl

/-- C10: `escapeHtml` maps empty input to the empty string, its output never
contains a raw `<`, `>`, `"` or `'`, and every `&` in its output begins one
of the entities `&amp;`, `&lt;`, `&gt;`, `&quot;`, `&#039;` (checked by
`ampCheck` on every suffix of the output); and `renderEntry` routes every
interpolated user field (date, name, url, message, favorite) through
`escapeHtml`: for any entry taking the url and favorite branches, the
rendered HTML contains exactly the 13 `<` and the 13 `>` of the fixed
template, whatever the field contents. -/
theorem escape_html_and_render_entry_safe :
    escapeHtml [] = [] ∧
    (∀ (s : List Char) (c : Char), c ∈ escapeHtml s →
      c ≠ '<' ∧ c ≠ '>' ∧ c ≠ quotChar ∧ c ≠ aposChar) ∧
    (∀ (s : List Char) (i : Nat), ampCheck ((escapeHtml s).drop i) = true) ∧
    (∀ e : Entry, e.url ≠ [] → e.favorite ≠ [] →
      (renderEntry e).count '<' = 13 ∧ (renderEntry e).count '>' = 13) := by
  refine ⟨rfl, escapeHtml_no_raw, escapeHtml_amp_entities, ?_⟩
  intro e hu hf
  simp only [renderEntry]
  rw [if_neg hu, if_neg hf]
  constructor
  · simp only [List.count_append, escapeHtml_count_lt_zero]
    decide
  · simp only [List.count_append, escapeHtml_count_gt_zero]
    decide

/-- Witness for C10 at concrete inputs: the escape of `"<"` starts with a
full entity, and a concrete entry with all five fields set renders with
exactly the template's 13 `<`. -/
theorem escape_html_and_render_entry_safe_witness :
    (('&' : Char) ≠ '<' ∧ ('&' : Char) ≠ '>' ∧ ('&' : Char) ≠ quotChar ∧
      ('&' : Char) ≠ aposChar) ∧
    ampCheck ((escapeHtml ['<', 'a']).drop 0) = true ∧
    (renderEntry ⟨['B'], ['u'], ['m'], ['f'], ['d']⟩).count '<' = 13 := by
  refine ⟨?_, ?_, ?_⟩
  · exact escape_html_and_render_entry_safe.2.1 ['<'] '&' (by decide)
  · exact escape_html_and_render_entry_safe.2.2.1 ['<', 'a'] 0
  · exact (escape_html_and_render_entry_safe.2.2.2
      ⟨['B'], ['u'], ['m'], ['f'], ['d']⟩ (by decide) (by decide)).1

/-- C9: a `POST /sign-guestbook` submission whose message field trims to
empty is answered with HTTP 400 and the (non-empty) error body, no entry is
appended and no redirect is issued; and the throttle treats this error body
exactly as any other body of the same size — the drip schedule (tick times,
cursor positions and piece sizes) depends only on the body's length. -/
theorem empty_message_rejected (rawName rawMessage rawUrl rawFavorite : List Char)
    (entries : List Entry) (now : List Char) (hm : jsTrim rawMessage = []) :
    (signGuestbook rawName rawMessage rawUrl rawFavorite entries now).status = 400 ∧
    (signGuestbook rawName rawMessage rawUrl rawFavorite entries now).body =
      errBodyMissing ∧
    errBodyMissing ≠ [] ∧
    (signGuestbook rawName rawMessage rawUrl rawFavorite entries now).entries =
      entries ∧
    (signGuestbook rawName rawMessage rawUrl rawFavorite entries now).redirected =
      false ∧
    (∀ other : List Nat, other.length = (errBodyMissing.map Char.toNat).length →
      (dripTicks (errBodyMissing.map Char.toNat)).map
          (fun k => (k.time, k.start, k.stop, k.piece.length)) =
        (dripTicks other).map
          (fun k => (k.time, k.start, k.stop, k.piece.length))) := by
  have hsg : signGuestbook rawName rawMessage rawUrl rawFavorite entries now =
      ⟨400, errBodyMissing, false, entries⟩ := by
    simp only [signGuestbook]
    rw [if_pos (Or.inr hm)]
  refine ⟨by rw [hsg], by rw [hsg], by decide, by rw [hsg], by rw [hsg], ?_⟩
  intro other hlen
  unfold dripTicks
  rw [hlen]
  exact dripGo_sched_eq CHUNK_SIZE CHUNK_INTERVAL _ other hlen.symm _ 0 MODEM_LATENCY

/-- Witness for C9: name present, message whitespace-only. -/
theorem empty_message_rejected_witness :
    (signGuestbook ['B', 'o', 'b'] [' ', ' '] [] [] [] ['d']).status = 400 ∧
    (signGuestbook ['B', 'o', 'b'] [' ', ' '] [] [] [] ['d']).entries = [] := by
  have h := empty_message_rejected ['B', 'o', 'b'] [' ', ' '] [] [] [] ['d'] (by decide)
  exact ⟨h.1, h.2.2.2.1⟩

end DemonicSkull
